import Mathlib

/-!
Verification of the frame-composition pipeline of the eink-calendar repository
(`render.py`, with `datahub.py` as the weather collaborator boundary).

Shallow embedding conventions:
* A Python `datetime` is modelled as a `Nat`: the number of seconds since an
  arbitrary epoch (1970-01-01, so that weekday arithmetic matches the C locale
  names produced by `strftime`).  `date()` is whole-day truncation, and the
  `.days` field of a `timedelta` is floor division of the signed difference by
  86400, which is exactly Lean's `Int` division for a positive divisor.
* PIL drawing is modelled as a list of draw commands (`Cmd`): each `text` or
  `rectangle` call becomes one command recording plane, position, payload,
  font name, fill and anchor.  Font rasterisation itself is the excluded
  collaborator, so a text command carries its anchor point rather than a
  pixel extent.
* Python code that can raise (dictionary lookup `KeyError`, list `IndexError`)
  is modelled with `Option`: `none` means the corresponding Python call raises
  and no frame is produced.
-/

/-- Seconds in a day. -/
def secPerDay : Nat := 86400

/-- Python `datetime.date()` as a day ordinal: whole days since the epoch. -/
def dateOf (t : Nat) : Nat := t / 86400

/-- Python `datetime.time().hour`. -/
def hourOf (t : Nat) : Nat := t % 86400 / 3600

/-- Python `datetime.time().minute`. -/
def minuteOf (t : Nat) : Nat := t % 3600 / 60

/-- Python `datetime.time().second` (never examined by the program; present to
make the granularity of the model explicit). -/
def secondOf (t : Nat) : Nat := t % 60

/-- Python `(a - b).days` for two datetimes: the `days` field of a `timedelta`
floors the signed difference towards minus infinity.  Lean's `Int` division by
the positive constant 86400 is the same floor. -/
def daysBetween (a b : Nat) : Int := ((a : Int) - (b : Int)) / 86400

/-- C-locale weekday names, Monday first (as in Python's `calendar.day_name`). -/
def dayNames : List String :=
  ["Monday", "Tuesday", "Wednesday", "Thursday", "Friday", "Saturday", "Sunday"]

/-- C-locale abbreviated weekday names, Monday first (`strftime "%a"`). -/
def dayAbbrevs : List String := ["Mon", "Tue", "Wed", "Thu", "Fri", "Sat", "Sun"]

/-- C-locale month names (`strftime "%B"`), January first. -/
def monthNames : List String :=
  ["January", "February", "March", "April", "May", "June", "July", "August",
   "September", "October", "November", "December"]

/-- Weekday index of a day ordinal, Monday = 0 (the epoch day 1970-01-01 was a
Thursday, index 3).  This is the convention of `calendar.monthrange` and of
`date.weekday()`. -/
def weekdayIdx (z : Nat) : Nat := (z + 3) % 7

/-- Gregorian civil date `(year, month, day-of-month)` of a day ordinal
(days since 1970-01-01); the standard days-to-civil algorithm, restricted to
nonnegative ordinals. -/
def civilFromDays (z : Nat) : Nat × Nat × Nat :=
  let z2 := z + 719468
  let era := z2 / 146097
  let doe := z2 % 146097
  let yoe := (doe - doe / 1460 + doe / 36524 - doe / 146096) / 365
  let y := yoe + era * 400
  let doy := doe - (365 * yoe + yoe / 4 - yoe / 100)
  let mp := (5 * doy + 2) / 153
  let d := doy - (153 * mp + 2) / 5 + 1
  let m := if mp < 10 then mp + 3 else mp - 9
  (if m ≤ 2 then y + 1 else y, m, d)

/-- Day of the month (1-31) of a datetime, as printed by `strftime "%-d"`. -/
def domOf (t : Nat) : Nat := (civilFromDays (dateOf t)).2.2

/-- Month (1-12) of a datetime. -/
def monthOf (t : Nat) : Nat := (civilFromDays (dateOf t)).2.1

/-- Year of a datetime. -/
def yearOf (t : Nat) : Nat := (civilFromDays (dateOf t)).1

/-- Gregorian leap-year rule. -/
def isLeap (y : Nat) : Bool := (y % 4 = 0 && y % 100 ≠ 0) || y % 400 = 0

/-- Length of a month, as returned in the second component of
`calendar.monthrange`. -/
def daysInMonth (y m : Nat) : Nat :=
  if m = 2 then (if isLeap y then 29 else 28)
  else if m = 4 || m = 6 || m = 9 || m = 11 then 30
  else 31

/-- Weekday (Monday = 0) of the first day of the month containing `t`, as
returned in the first component of `calendar.monthrange`. -/
def firstWeekdayOfMonth (t : Nat) : Nat := weekdayIdx (dateOf t - (domOf t - 1))

/-- `strftime "%A"`: full weekday name of a datetime. -/
def weekdayName (t : Nat) : String := dayNames.getD (weekdayIdx (dateOf t)) ""

/-- `strftime "%a"`: abbreviated weekday name of a datetime. -/
def weekdayAbbrev (t : Nat) : String := dayAbbrevs.getD (weekdayIdx (dateOf t)) ""

/-- `strftime "%B"`: month name of a datetime. -/
def monthName (t : Nat) : String := monthNames.getD (monthOf t - 1) ""

/-- Two-digit zero padding, as used by `%M` and `%H`. -/
def pad2 (n : Nat) : String := if n < 10 then "0" ++ toString n else toString n

/-- `strftime "%-H:%M"`: hour without padding, minute zero-padded (the format
of the time prefix of a timed agenda event line). -/
def fmtHM (t : Nat) : String := toString (hourOf t) ++ ":" ++ pad2 (minuteOf t)

/-- `strftime "%H:%M"`: both fields zero-padded (the format of the near-term
forecast slot times). -/
def fmtHHMM (t : Nat) : String := pad2 (hourOf t) ++ ":" ++ pad2 (minuteOf t)

/-- A calendar event as built by `getEvents`: summary, location and the two
endpoint datetimes (dictionary keys `summary`, `location`, `start`, `end`; the
last one is called `endTime` here because `end` is reserved in Lean). -/
structure Event where
  summary : String
  location : String
  start : Nat
  endTime : Nat
deriving DecidableEq, Repr

/-- A day bucket as built by `eventsToDays`: the dictionary
`{date, datestring, events}`. -/
structure Day where
  date : Nat
  datestring : String
  events : List Event
deriving DecidableEq, Repr

/-- Ordinal suffix helper nested in `eventsToDays`:
`'th' if 11<=d<=13 else {1:'st',2:'nd',3:'rd'}.get(d%10, 'th')`. -/
def ordinalSuffix (d : Nat) : String :=
  if 11 ≤ d ∧ d ≤ 13 then "th"
  else if d % 10 = 1 then "st"
  else if d % 10 = 2 then "nd"
  else if d % 10 = 3 then "rd"
  else "th"

/-- `dateTimeAsPrettyString` nested in `eventsToDays`: "Today", "Tomorrow", or
`"%A %-d" ++ suffix ++ " %B"`. -/
def dateTimeAsPrettyString (now t : Nat) : String :=
  if dateOf t = dateOf now then "Today"
  else if dateOf t = dateOf now + 1 then "Tomorrow"
  else weekdayName t ++ " " ++ toString (domOf t) ++ ordinalSuffix (domOf t)
       ++ " " ++ monthName t

/-- `eventsToDays(events, daystolook)`: walk the event list; a new day group
opens when no group is open or the event's date differs from the date of the
last group; before opening a group, `break` if
`(e['start'] - datetime.now()).days > daystolook`; otherwise events whose date
equals the open group's date are appended to it.  The recursion below peels
one group at a time: the head event opens the group, the following events of
the same date (`takeWhile`) fill it, and the loop continues on the rest. -/
def eventsToDays (now daystolook : Nat) : List Event → List Day
  | [] => []
  | e :: es =>
    if daysBetween e.start now > (daystolook : Int) then []
    else
      { date := dateOf e.start,
        datestring := dateTimeAsPrettyString now e.start,
        events := e :: es.takeWhile (fun x => dateOf x.start == dateOf e.start) }
      :: eventsToDays now daystolook
           (es.dropWhile (fun x => dateOf x.start == dateOf e.start))
termination_by l => l.length
decreasing_by
  simp only [List.length_cons]
  have h : (es.dropWhile (fun x => dateOf x.start == dateOf e.start)).length ≤ es.length :=
    (List.dropWhile_sublist _).length_le
  omega

/-- `allDay(start, end)`: an event is treated as all-day when both endpoints
have minute 0 and hour 0 (the check order follows the source; seconds are not
examined). -/
def allDay (start endTime : Nat) : Bool :=
  minuteOf start == 0 && hourOf start == 0 && minuteOf endTime == 0 && hourOf endTime == 0

/-- The agenda line text of one event, as composed inside `renderFrame`:
all-day events show only the summary, timed events are prefixed with the
`%-H:%M` start time and `" - "`; both carry a two-space indent. -/
def eventLine (e : Event) : String :=
  if allDay e.start e.endTime then "  " ++ e.summary
  else "  " ++ fmtHM e.start ++ " - " ++ e.summary

/-- A weather code as used by the keys of `WeatherToMeteoGlyph`: either the
string sentinel `"NA"` or an integer code. -/
inductive WeatherCode where
  | na : WeatherCode
  | code (n : Nat) : WeatherCode
deriving DecidableEq, Repr

/-- The module-level `WeatherToMeteoGlyph` dictionary of `render.py`, embedded
as an association list with the entries in source order. -/
def WeatherToMeteoGlyph : List (WeatherCode × String) :=
  [(.na, ")"),
   (.code 0, "C"),
   (.code 1, "B"),
   (.code 2, "I"),
   (.code 3, "H"),
   (.code 4, ")"),
   (.code 5, "M"),
   (.code 6, "M"),
   (.code 7, "N"),
   (.code 8, "Y"),
   (.code 9, "Q"),
   (.code 10, "Q"),
   (.code 11, "Q"),
   (.code 12, "Q"),
   (.code 13, "R"),
   (.code 14, "R"),
   (.code 15, "R"),
   (.code 16, "X"),
   (.code 17, "X"),
   (.code 18, "X"),
   (.code 19, "X"),
   (.code 20, "X"),
   (.code 21, "X"),
   (.code 22, "U"),
   (.code 23, "U"),
   (.code 24, "U"),
   (.code 25, "W"),
   (.code 26, "W"),
   (.code 27, "W"),
   (.code 28, "P"),
   (.code 29, "P"),
   (.code 30, "P")]

/-- Python dictionary subscription `WeatherToMeteoGlyph[c]`: `some` glyph when
the key is present, `none` when the subscription raises `KeyError`. -/
def glyphLookup (c : WeatherCode) : Option String :=
  WeatherToMeteoGlyph.lookup c

/-- One sample of the three-hourly forecast series (`weather[0].data`), with
the fields read by `renderFrame`: `timestamp[0]`, `Weather Type[0]`,
`Feels Like Temperature[0]`. -/
structure HourlySample where
  timestamp : Nat
  weatherType : WeatherCode
  feelsLike : Int
deriving DecidableEq, Repr

/-- One sample of the daily forecast series (`weather[1].data`), with the
fields read by `renderFrame`: `timestamp[0]`, `Weather Type[0]`,
`Feels Like Day Maximum Temperature[0]`,
`Feels Like Night Minimum Temperature[0]`. -/
structure DailySample where
  timestamp : Nat
  weatherType : WeatherCode
  dayMaxFeelsLike : Int
  nightMinFeelsLike : Int
deriving DecidableEq, Repr

/-- The `weather` pair passed to `renderFrame`: the three-hourly series and
the daily series. -/
structure Weather where
  hourly : List HourlySample
  daily : List DailySample
deriving DecidableEq, Repr

/-- The near-term samples actually rendered: the comprehension
`[x for x in weather[0].data if x['timestamp'][0] > datetime.now()]` followed
by the loop `for i in range(7): if i < len(...)`, i.e. the first seven
future-timestamped samples in input order. -/
def nearTermSlots (now : Nat) (data : List HourlySample) : List HourlySample :=
  (data.filter (fun x => now < x.timestamp)).take 7

/-- The four strings composed for one daily forecast slot. -/
structure DailySlot where
  timetext : String
  weathertext : String
  temptext : String
  temptext2 : String
deriving DecidableEq, Repr

/-- The slot built from a day sample and the following night sample:
`strftime("%a")` of the day timestamp, the day sample's glyph, the day
maximum feels-like as primary and the night minimum feels-like as secondary.
`none` when the glyph lookup raises. -/
def dailySlotOf (day night : DailySample) : Option DailySlot :=
  (glyphLookup day.weatherType).map (fun g =>
    ⟨weekdayAbbrev day.timestamp, g,
     toString day.dayMaxFeelsLike ++ "°",
     toString night.nightMinFeelsLike ++ "°"⟩)

/-- The daily slots drawn by `renderFrame`: the loop `for i in [2,4,6]` reads
samples `i` and `i+1` of the daily series, so the three slots come from the
pairs at positions (2,3), (4,5) and (6,7).  `none` when an index is out of
range (`IndexError`) or a glyph lookup raises (`KeyError`). -/
def dailySlots (d : List DailySample) : Option (List DailySlot) := do
  let a ← d.get? 2
  let b ← d.get? 3
  let c ← d.get? 4
  let e ← d.get? 5
  let f ← d.get? 6
  let g ← d.get? 7
  let s1 ← dailySlotOf a b
  let s2 ← dailySlotOf c e
  let s3 ← dailySlotOf f g
  pure [s1, s2, s3]

/-- Modelled from the spec: the daily selection rule as §4.2 words it —
"select samples at even list positions paired with the immediately following
odd-position sample ...; take three such pairs", i.e. the pairs at positions
(0,1), (2,3) and (4,5).  Present only for comparison with the source-derived
`dailySlots`. -/
def dailySlotsSpecPairing (d : List DailySample) : Option (List DailySlot) := do
  let a ← d.get? 0
  let b ← d.get? 1
  let c ← d.get? 2
  let e ← d.get? 3
  let f ← d.get? 4
  let g ← d.get? 5
  let s1 ← dailySlotOf a b
  let s2 ← dailySlotOf c e
  let s3 ← dailySlotOf f g
  pure [s1, s2, s3]

/-- The two raster planes of the e-paper frame. -/
inductive Plane where
  | black : Plane
  | red : Plane
deriving DecidableEq, Repr

/-- One PIL draw call: `ImageDraw.text` or `ImageDraw.rectangle`, recording the
plane drawn on, the pixel coordinates, the payload string or the second rect
corner, the font name, the fill value and the anchor ("la" is PIL's default
text anchor). -/
inductive Cmd where
  | text (p : Plane) (x y : Int) (s : String) (font : String) (fill : Nat) (anchor : String)
  | rect (p : Plane) (x0 y0 x1 y1 : Int) (fill : Nat)
deriving DecidableEq, Repr

/-- Lowest pixel row touched by a command in this model: the anchor row of a
text call, the second corner row of a rectangle. -/
def cmdYmax : Cmd → Int
  | .text _ _ y _ _ _ _ => y
  | .rect _ _ _ _ y1 _ => y1

/-- The `bottomgutter` constant of `renderFrame`. -/
def bottomgutter : Int := 400

/-- A command lies in the forecast strip region: strictly below the horizontal
boundary rule (which occupies rows `bottomgutter - 1 .. bottomgutter + 1`). -/
def inStrip (c : Cmd) : Bool := bottomgutter + 1 < cmdYmax c

/-- The vertical budget check of the agenda column:
`bottomgutter - lineheight = 378`. -/
def agendaLimit : Nat := 378

/-- The inner loop of the agenda column: one line per event while the cursor
is below the budget; an event whose line would not fit is skipped (the Python
loop continues, but the cursor no longer advances).  Returns the emitted
commands and the final cursor. -/
def eventLinesCmds (ypos : Nat) : List Event → List Cmd × Nat
  | [] => ([], ypos)
  | e :: es =>
    if ypos < agendaLimit then
      let r := eventLinesCmds (ypos + 22) es
      (Cmd.text .black 230 ypos (eventLine e) "MainText" 0 "la" :: r.1, r.2)
    else eventLinesCmds ypos es

/-- The outer loop of the agenda column: per day, the red date label, the
event lines, and a 6-pixel gap after the group; a day whose label line would
not fit is skipped entirely. -/
def agendaCmds (ypos : Nat) : List Day → List Cmd × Nat
  | [] => ([], ypos)
  | d :: ds =>
    if ypos < agendaLimit then
      let r := eventLinesCmds (ypos + 22) d.events
      let rest := agendaCmds (r.2 + 6) ds
      (Cmd.text .red 230 ypos d.datestring "MainText" 0 "la" :: (r.1 ++ rest.1),
       rest.2)
    else agendaCmds ypos ds

/-- The date block of the left panel: weekday, big day-of-month (black outline
and red duplicate), month. -/
def datePanelCmds (now : Nat) : List Cmd :=
  [Cmd.text .black 100 40 (weekdayName now) "DateSmall" 255 "mt",
   Cmd.text .black 100 70 (toString (domOf now)) "DateBig" 255 "mt",
   Cmd.text .red 100 70 (toString (domOf now)) "DateBig" 0 "mt",
   Cmd.text .black 100 155 (monthName now) "DateSmall" 255 "mt"]

/-- First letters of the weekday names, Monday first
(`[calendar.day_name[x][0] for x in range(7)]`). -/
def weekLetters : List String := ["M", "T", "W", "T", "F", "S", "S"]

/-- Header of the mini calendar: the seven letters at row `caly - 1 = 269` and
the divider rule at rows 284-285. -/
def miniCalHeader : List Cmd :=
  ((List.range 7).map (fun (i : Nat) =>
    Cmd.text .black (25 + (i : Int) * 25) 269 (weekLetters.getD i "") "Pixellari16" 255 "mt"))
  ++ [Cmd.rect .black 13 284 186 285 255]

/-- The day-number grid of the mini calendar: `n` remaining cells, current
day index `dayIdx` (the printed number is `dayIdx + 1`), current column `dw`,
current row `caly`; the column wraps to 0 and the row advances by 20 after
column 6; the cell equal to the current day-of-month is duplicated on the red
plane. -/
def miniCalCells (nowDom : Nat) : Nat → Nat → Nat → Nat → List Cmd
  | 0, _, _, _ => []
  | n + 1, dayIdx, dw, caly =>
    Cmd.text .black (25 + (dw : Int) * 25) (caly : Int) (toString (dayIdx + 1)) "Pixellari16" 255 "mt"
    :: ((if dayIdx + 1 = nowDom then
          [Cmd.text .red (25 + (dw : Int) * 25) (caly : Int) (toString (dayIdx + 1)) "Pixellari16" 0 "mt"]
         else [])
        ++ (if dw + 1 = 7 then miniCalCells nowDom n (dayIdx + 1) 0 (caly + 20)
            else miniCalCells nowDom n (dayIdx + 1) (dw + 1) caly))

/-- The whole mini calendar block: header plus the grid, starting at the
month's first-weekday offset with row 290. -/
def miniCalCmds (now : Nat) : List Cmd :=
  miniCalHeader
  ++ miniCalCells (domOf now) (daysInMonth (yearOf now) (monthOf now)) 0
      (firstWeekdayOfMonth now) 290

/-- The three draw calls of one near-term forecast cell, at column `xpos`:
time on the red plane, glyph and feels-like temperature on the black plane.
`none` when the glyph lookup raises. -/
def hourlyCellCmds (x : HourlySample) (xpos : Int) : Option (List Cmd) :=
  (glyphLookup x.weatherType).map (fun g =>
    [Cmd.text .red xpos 420 (fmtHHMM x.timestamp) "DateSmall" 0 "mt",
     Cmd.text .black xpos 465 g "Meteocons" 0 "mm",
     Cmd.text .black xpos 500 (toString x.feelsLike ++ "°C") "DateSmall" 0 "mt"])

/-- The near-term loop: one cell per slot, advancing the column by 80. -/
def hourlyCmds : List HourlySample → Int → Option (List Cmd)
  | [], _ => some []
  | x :: xs, xpos => do
    let c ← hourlyCellCmds x xpos
    let r ← hourlyCmds xs (xpos + 80)
    pure (c ++ r)

/-- The four draw calls of one daily forecast cell at column `xpos`. -/
def dailyCellCmds (s : DailySlot) (xpos : Int) : List Cmd :=
  [Cmd.text .red xpos 420 s.timetext "DateSmall" 0 "mt",
   Cmd.text .black xpos 465 s.weathertext "Meteocons" 0 "mm",
   Cmd.text .black (xpos - 15) 500 s.temptext "DateSmall" 0 "mt",
   Cmd.text .black (xpos + 15) 500 s.temptext2 "Pixellari16" 0 "mt"]

/-- The daily loop over the selected slots, advancing the column by 80. -/
def dailyCmdsOfSlots : List DailySlot → Int → List Cmd
  | [], _ => []
  | s :: ss, xpos => dailyCellCmds s xpos ++ dailyCmdsOfSlots ss (xpos + 80)

/-- The weather block of `renderFrame` (executed only when `weather != None`):
the near-term cells from column 50, then the vertical divider at
`xpos - 21 .. xpos - 19` spanning `bottomgutter .. height`, then the daily
cells from column `xpos + 40`. -/
def weatherCmds (now height : Nat) (w : Weather) : Option (List Cmd) :=
  let slots := nearTermSlots now w.hourly
  let xpos : Int := 50 + 80 * slots.length
  do
    let hc ← hourlyCmds slots 50
    let ds ← dailySlots w.daily
    pure (hc ++ [Cmd.rect .black (xpos - 21) bottomgutter (xpos - 19) (height : Int) 0]
          ++ dailyCmdsOfSlots ds (xpos + 40))

/-- The two raster planes of `renderFrame`, reduced to their dimensions and
the list of draw commands in source order. -/
structure Frame where
  width : Nat
  height : Nat
  cmds : List Cmd
deriving DecidableEq, Repr

/-- Everything `renderFrame` draws before the weather block: the left border,
the date panel, the agenda column (cursor starting at 20) and the horizontal
boundary rule at rows 399-401. -/
def baseCmdsPre (width now : Nat) (days : List Day) : List Cmd :=
  Cmd.rect .black 0 0 200 400 0
  :: (datePanelCmds now
      ++ (agendaCmds 20 days).1
      ++ [Cmd.rect .black 0 399 (width : Int) 401 0])

/-- `renderFrame(width, height, days, weather)`: the fixed blocks, the weather
block when `weather` is present, then the mini calendar.  `none` exactly when
the Python call raises (missing glyph or short daily series). -/
def renderFrame (width height now : Nat) (days : List Day) (weather : Option Weather) :
    Option Frame :=
  match weather with
  | none => some ⟨width, height, baseCmdsPre width now days ++ miniCalCmds now⟩
  | some w =>
    (weatherCmds now height w).map (fun wc =>
      ⟨width, height, baseCmdsPre width now days ++ wc ++ miniCalCmds now⟩)

/-- The tuple persisted by the `--cache` option: the day list and the fetch
timestamp. -/
structure CacheRecord where
  days : List Day
  timestamp : Nat
deriving DecidableEq, Repr

/-- The freshness decision of `main`: the cache suppresses the redraw exactly
when a record was loaded (`none` models a missing file or any unpickling
error) and `cacheddays == days and datetime.now() < cachedtime +
timedelta(hours=options.cachehours)`. -/
def isFresh (rec : Option CacheRecord) (current : List Day) (ttlHours now : Nat) : Bool :=
  match rec with
  | none => false
  | some r => r.days == current && decide (now < r.timestamp + ttlHours * 3600)

/-- The command-line options of `main` with their argparse defaults. -/
structure Options where
  noclear : Bool
  noweather : Bool
  output : String
  input : String
  redinput : String
  calendars : String
  verbose : Bool
  width : Nat
  height : Nat
  days : Nat
  cache : Option String
  cachehours : Nat
deriving DecidableEq, Repr

/-- The default option values declared by the `optparse` setup. -/
def defaultOptions : Options :=
  ⟨false, false, "", "", "", "primary", false, 880, 528, 7, none, 2⟩

/-- The process environment consulted by `main`'s configuration checks:
the host platform, whether the Waveshare import succeeds, whether
`weather.json` exists, and which of its three keys are present. -/
structure Env where
  platformIsLinux : Bool
  waveshareImportOk : Bool
  weatherJsonExists : Bool
  hasLat : Bool
  hasLon : Bool
  hasApikey : Bool
deriving DecidableEq, Repr

/-- The process exit status of `main`, assuming the external collaborators
(calendar service, weather fetch, cache file I/O, display) succeed.  The two
flag checks and the platform/import checks call `sys.exit(1)`; the two
weather-configuration failure paths call the bare `sys.exit()`, whose exit
status is 0; every run that is not terminated early finishes `main` normally
and exits 0. -/
def mainExitCode (o : Options) (env : Env) : Nat :=
  if (o.redinput ≠ "" ∧ o.input = "") ∨ (o.redinput = "" ∧ o.input ≠ "") then 1
  else if o.output = "" ∧ env.platformIsLinux = false then 1
  else if o.output = "" ∧ env.waveshareImportOk = false then 1
  else if o.input = "" ∧ o.noweather = false then
    if env.weatherJsonExists then
      if env.hasLat = false ∧ env.hasLon = false ∧ env.hasApikey = false then
        0
      else 0
    else 0
  else 0

/-- C1: the cache freshness check of `main` returns true iff a record was
loaded, its `days` snapshot is structurally equal to the freshly computed day
list, and the query time is strictly before the stored timestamp plus the TTL;
consequently any structural difference gives false regardless of TTL, and an
expired TTL gives false even on identical content. -/
theorem isFresh_iff_fresh (rec : Option CacheRecord) (cur : List Day) (ttl now : Nat) :
    (isFresh rec cur ttl now = true ↔
      ∃ r, rec = some r ∧ r.days = cur ∧ now < r.timestamp + ttl * 3600) ∧
    (∀ r, rec = some r → r.days ≠ cur → isFresh rec cur ttl now = false) ∧
    (∀ r, rec = some r → r.timestamp + ttl * 3600 ≤ now → isFresh rec cur ttl now = false) := by
  refine ⟨?_, ?_, ?_⟩
  · cases rec with
    | none => simp [isFresh]
    | some r =>
      simp only [isFresh, Bool.and_eq_true, beq_iff_eq, decide_eq_true_eq,
        Option.some.injEq]
      constructor
      · rintro ⟨h1, h2⟩
        exact ⟨r, rfl, h1, h2⟩
      · rintro ⟨r2, hr, h1, h2⟩
        subst hr
        exact ⟨h1, h2⟩
  · rintro r rfl hne
    simp [isFresh, hne]
  · rintro r rfl hex
    have hlt : ¬ now < r.timestamp + ttl * 3600 := by omega
    simp [isFresh, hlt]

/-- Witness for C1: the spec's end-to-end scenario — record stored at time
`T = 1000` with TTL 2 hours and identical days, queried at `T` plus 3 hours,
is not fresh. -/
theorem isFresh_iff_fresh_witness :
    isFresh (some ⟨[], 1000⟩) [] 2 (1000 + 3 * 3600) = false :=
  (isFresh_iff_fresh (some ⟨[], 1000⟩) [] 2 (1000 + 3 * 3600)).2.2 ⟨[], 1000⟩ rfl (by decide)

/-- C5: the glyph table resolves exactly the integer codes 0-30 plus the
`"NA"` sentinel; code 7 resolves to `"N"`; any other code (999 as the spec's
example) fails the lookup, i.e. the Python subscription raises `KeyError`
rather than falling back to a default glyph. -/
theorem glyphLookup_closed_set :
    (∀ n : Nat, (glyphLookup (.code n)).isSome = true ↔ n ≤ 30) ∧
    (glyphLookup .na).isSome = true ∧
    glyphLookup (.code 7) = some "N" ∧
    glyphLookup (.code 999) = none := by
  refine ⟨?_, by decide, by decide, by decide⟩
  intro n
  constructor
  · intro h
    by_contra hn
    obtain ⟨m, rfl⟩ : ∃ m, n = m + 31 := ⟨n - 31, by omega⟩
    have : glyphLookup (.code (m + 31)) = none := rfl
    rw [this] at h
    simp at h
  · intro h
    interval_cases n <;> decide

/-- Witness for C5 at a concrete out-of-range code: code 31 is the first
integer just outside the closed set and its lookup fails. -/
theorem glyphLookup_closed_set_witness :
    (glyphLookup (.code 30)).isSome = true ∧ ¬ (glyphLookup (.code 31)).isSome = true :=
  ⟨(glyphLookup_closed_set.1 30).mpr (by decide),
   fun h => by simpa using glyphLookup_closed_set.1 31 |>.mp h⟩

/-- C10: the all-day classification looks only at the hour and minute of the
two endpoints (a timestamp changed within the same minute classifies
identically, so seconds are never examined); an all-day event line is the
two-space indent plus the bare summary, and a timed event line is prefixed
with the `%-H:%M` start time and `" - "`. -/
theorem allDay_classification (ev : Event) (s2 e2 : Nat)
    (hs : ev.start / 60 = s2 / 60) (he : ev.endTime / 60 = e2 / 60) :
    (allDay ev.start ev.endTime = true ↔
      hourOf ev.start = 0 ∧ minuteOf ev.start = 0 ∧
      hourOf ev.endTime = 0 ∧ minuteOf ev.endTime = 0) ∧
    allDay s2 e2 = allDay ev.start ev.endTime ∧
    (allDay ev.start ev.endTime = true → eventLine ev = "  " ++ ev.summary) ∧
    (allDay ev.start ev.endTime = false →
      eventLine ev = "  " ++ fmtHM ev.start ++ " - " ++ ev.summary) := by
  have hh : hourOf s2 = hourOf ev.start ∧ minuteOf s2 = minuteOf ev.start := by
    unfold hourOf minuteOf
    omega
  have hh2 : hourOf e2 = hourOf ev.endTime ∧ minuteOf e2 = minuteOf ev.endTime := by
    unfold hourOf minuteOf
    omega
  refine ⟨?_, ?_, ?_, ?_⟩
  · simp only [allDay, Bool.and_eq_true, beq_iff_eq]
    tauto
  · simp only [allDay, hh.1, hh.2, hh2.1, hh2.2]
  · intro h
    simp [eventLine, h]
  · intro h
    simp [eventLine, h]

/-- Witness for C10: an event running from 00:00:30 to the next midnight
plus 30 seconds is classified all-day (nonzero seconds are ignored) and is
rendered as the bare summary; moving both endpoints to second 59 of the same
minute changes nothing. -/
theorem allDay_classification_witness :
    (30 / 60 = 59 / 60 ∧ 86430 / 60 = 86459 / 60) ∧
    ((allDay 30 86430 = true ↔
      hourOf 30 = 0 ∧ minuteOf 30 = 0 ∧ hourOf 86430 = 0 ∧ minuteOf 86430 = 0) ∧
     allDay 59 86459 = allDay 30 86430 ∧
     (allDay 30 86430 = true → eventLine ⟨"Party", "", 30, 86430⟩ = "  " ++ "Party") ∧
     (allDay 30 86430 = false →
      eventLine ⟨"Party", "", 30, 86430⟩ = "  " ++ fmtHM 30 ++ " - " ++ "Party")) :=
  ⟨by decide, allDay_classification ⟨"Party", "", 30, 86430⟩ 59 86459 (by decide) (by decide)⟩

/-- C9 (documenting the divergence): with output-to-file mode, weather
enabled and `weather.json` missing, `main` terminates through the bare
`sys.exit()` and the process exit status is 0, not non-zero; the same holds
when `weather.json` exists but carries none of the three keys; the
mismatched `--input`/`--redinput` pairing does exit 1. -/
theorem mainExitCode_weather_config_zero :
    mainExitCode ⟨false, false, "out", "", "", "primary", false, 880, 528, 7, none, 2⟩
      ⟨true, true, false, false, false, false⟩ = 0 ∧
    mainExitCode ⟨false, false, "out", "", "", "primary", false, 880, 528, 7, none, 2⟩
      ⟨true, true, true, false, false, false⟩ = 0 ∧
    mainExitCode ⟨false, false, "out", "in.png", "", "primary", false, 880, 528, 7, none, 2⟩
      ⟨true, true, true, true, true, true⟩ = 1 := by
  decide

/-- C8: the rendered near-term strip never holds more than 7 slots, every
rendered sample's timestamp is strictly after the current time, and the slots
are a sublist of the input series (input order preserved). -/
theorem nearTermSlots_bounded_future_ordered (now : Nat) (data : List HourlySample) :
    (nearTermSlots now data).length ≤ 7 ∧
    (∀ s ∈ nearTermSlots now data, now < s.timestamp) ∧
    List.Sublist (nearTermSlots now data) data := by
  refine ⟨List.length_take_le 7 _, ?_, (List.take_sublist 7 _).trans (List.filter_sublist data)⟩
  intro s hs
  have h2 := List.mem_filter.mp (List.mem_of_mem_take hs)
  simpa using h2.2

/-- Witness for C8: nine samples, two of them in the past relative to
`now = 5`; the slots are the first seven future ones in order. -/
theorem nearTermSlots_bounded_future_ordered_witness :
    nearTermSlots 5 [⟨1, .code 1, 10⟩, ⟨4, .code 1, 10⟩, ⟨6, .code 1, 10⟩, ⟨7, .code 1, 10⟩,
       ⟨8, .code 1, 10⟩, ⟨9, .code 1, 10⟩, ⟨10, .code 1, 10⟩, ⟨11, .code 1, 10⟩,
       ⟨12, .code 1, 10⟩, ⟨13, .code 1, 10⟩]
      = [⟨6, .code 1, 10⟩, ⟨7, .code 1, 10⟩, ⟨8, .code 1, 10⟩, ⟨9, .code 1, 10⟩,
         ⟨10, .code 1, 10⟩, ⟨11, .code 1, 10⟩, ⟨12, .code 1, 10⟩] ∧
    ((nearTermSlots 5 [⟨1, .code 1, 10⟩, ⟨4, .code 1, 10⟩, ⟨6, .code 1, 10⟩, ⟨7, .code 1, 10⟩,
       ⟨8, .code 1, 10⟩, ⟨9, .code 1, 10⟩, ⟨10, .code 1, 10⟩, ⟨11, .code 1, 10⟩,
       ⟨12, .code 1, 10⟩, ⟨13, .code 1, 10⟩]).length ≤ 7 ∧
     (∀ s ∈ nearTermSlots 5 [⟨1, .code 1, 10⟩, ⟨4, .code 1, 10⟩, ⟨6, .code 1, 10⟩, ⟨7, .code 1, 10⟩,
       ⟨8, .code 1, 10⟩, ⟨9, .code 1, 10⟩, ⟨10, .code 1, 10⟩, ⟨11, .code 1, 10⟩,
       ⟨12, .code 1, 10⟩, ⟨13, .code 1, 10⟩], 5 < s.timestamp) ∧
     List.Sublist (nearTermSlots 5 [⟨1, .code 1, 10⟩, ⟨4, .code 1, 10⟩, ⟨6, .code 1, 10⟩, ⟨7, .code 1, 10⟩,
       ⟨8, .code 1, 10⟩, ⟨9, .code 1, 10⟩, ⟨10, .code 1, 10⟩, ⟨11, .code 1, 10⟩,
       ⟨12, .code 1, 10⟩, ⟨13, .code 1, 10⟩])
       [⟨1, .code 1, 10⟩, ⟨4, .code 1, 10⟩, ⟨6, .code 1, 10⟩, ⟨7, .code 1, 10⟩,
       ⟨8, .code 1, 10⟩, ⟨9, .code 1, 10⟩, ⟨10, .code 1, 10⟩, ⟨11, .code 1, 10⟩,
       ⟨12, .code 1, 10⟩, ⟨13, .code 1, 10⟩]) :=
  ⟨by decide, nearTermSlots_bounded_future_ordered 5 _⟩

/-- Once the agenda cursor has reached the budget, the event loop emits
nothing and leaves the cursor unchanged. -/
theorem eventLinesCmds_stop (es : List Event) (y : Nat) (h : agendaLimit ≤ y) :
    eventLinesCmds y es = ([], y) := by
  induction es with
  | nil => rfl
  | cons e es ih =>
    simp only [eventLinesCmds]
    rw [if_neg (by omega)]
    exact ih

/-- Once the agenda cursor has reached the budget, the day loop emits nothing
and leaves the cursor unchanged. -/
theorem agendaCmds_stop (ds : List Day) (y : Nat) (h : agendaLimit ≤ y) :
    agendaCmds y ds = ([], y) := by
  induction ds with
  | nil => rfl
  | cons d ds ih =>
    simp only [agendaCmds]
    rw [if_neg (by omega)]
    exact ih

/-- The agenda cursor never moves backwards across the event loop. -/
theorem eventLinesCmds_mono (es : List Event) : ∀ y : Nat, y ≤ (eventLinesCmds y es).2 := by
  induction es with
  | nil => intro y; exact le_refl y
  | cons e es ih =>
    intro y
    simp only [eventLinesCmds]
    by_cases h : y < agendaLimit
    · rw [if_pos h]
      exact le_trans (by omega) (ih (y + 22))
    · rw [if_neg h]
      exact ih y

/-- The agenda cursor never moves backwards across the day loop. -/
theorem agendaCmds_mono (ds : List Day) : ∀ y : Nat, y ≤ (agendaCmds y ds).2 := by
  induction ds with
  | nil => intro y; exact le_refl y
  | cons d ds ih =>
    intro y
    simp only [agendaCmds]
    by_cases h : y < agendaLimit
    · rw [if_pos h]
      have h1 := eventLinesCmds_mono d.events (y + 22)
      have h2 := ih ((eventLinesCmds (y + 22) d.events).2 + 6)
      omega
    · rw [if_neg h]
      exact ih y

/-- The event loop over a concatenation is the loop over the first part
followed by the loop over the second part from the resulting cursor. -/
theorem eventLinesCmds_append (l1 l2 : List Event) : ∀ y : Nat,
    eventLinesCmds y (l1 ++ l2) =
      ((eventLinesCmds y l1).1 ++ (eventLinesCmds (eventLinesCmds y l1).2 l2).1,
       (eventLinesCmds (eventLinesCmds y l1).2 l2).2) := by
  induction l1 with
  | nil => intro y; simp [eventLinesCmds]
  | cons e es ih =>
    intro y
    by_cases h : y < agendaLimit
    · simp only [List.cons_append, eventLinesCmds, if_pos h, List.append_eq]
      rw [ih]
    · simp only [List.cons_append, eventLinesCmds, if_neg h, List.append_eq]
      rw [ih]

/-- The day loop over a concatenation is the loop over the first part followed
by the loop over the second part from the resulting cursor. -/
theorem agendaCmds_append (l1 l2 : List Day) : ∀ y : Nat,
    agendaCmds y (l1 ++ l2) =
      ((agendaCmds y l1).1 ++ (agendaCmds (agendaCmds y l1).2 l2).1,
       (agendaCmds (agendaCmds y l1).2 l2).2) := by
  induction l1 with
  | nil => intro y; simp [agendaCmds]
  | cons d ds ih =>
    intro y
    by_cases h : y < agendaLimit
    · simp only [List.cons_append, agendaCmds, if_pos h, List.append_eq]
      rw [ih]
      simp [List.append_assoc]
    · simp only [List.cons_append, agendaCmds, if_neg h, List.append_eq]
      rw [ih]

/-- Every command the event loop emits sits strictly above the vertical
budget. -/
theorem eventLinesCmds_y_lt (es : List Event) : ∀ y : Nat,
    ∀ c ∈ (eventLinesCmds y es).1, cmdYmax c < (agendaLimit : Int) := by
  induction es with
  | nil => intro y c hc; simp [eventLinesCmds] at hc
  | cons e es ih =>
    intro y c hc
    simp only [eventLinesCmds] at hc
    by_cases h : y < agendaLimit
    · rw [if_pos h] at hc
      rcases List.mem_cons.mp hc with h1 | h1
      · subst h1
        simp only [cmdYmax]
        exact_mod_cast h
      · exact ih (y + 22) c h1
    · rw [if_neg h] at hc
      exact ih y c hc

/-- Every command the day loop emits sits strictly above the vertical
budget. -/
theorem agendaCmds_y_lt (ds : List Day) : ∀ y : Nat,
    ∀ c ∈ (agendaCmds y ds).1, cmdYmax c < (agendaLimit : Int) := by
  induction ds with
  | nil => intro y c hc; simp [agendaCmds] at hc
  | cons d ds ih =>
    intro y c hc
    simp only [agendaCmds] at hc
    by_cases h : y < agendaLimit
    · rw [if_pos h] at hc
      rcases List.mem_cons.mp hc with h1 | h1
      · subst h1
        simp only [cmdYmax]
        exact_mod_cast h
      · rcases List.mem_append.mp h1 with h2 | h2
        · exact eventLinesCmds_y_lt d.events (y + 22) c h2
        · exact ih _ c h2
    · rw [if_neg h] at hc
      exact ih y c hc

/-- C6: once the agenda cursor has reached the reserved vertical budget, no
further agenda lines are emitted for the entire remaining render — appending
more days (or, within a day, more events) past the cut point changes nothing;
and every line that is emitted sits strictly above the budget. -/
theorem agenda_truncation (y : Nat) (l1 l2 : List Day) (es1 es2 : List Event) :
    (agendaLimit ≤ (agendaCmds y l1).2 → agendaCmds y (l1 ++ l2) = agendaCmds y l1) ∧
    (agendaLimit ≤ (eventLinesCmds y es1).2 →
      eventLinesCmds y (es1 ++ es2) = eventLinesCmds y es1) ∧
    (∀ c ∈ (agendaCmds y (l1 ++ l2)).1, cmdYmax c < (agendaLimit : Int)) := by
  refine ⟨?_, ?_, fun c hc => agendaCmds_y_lt (l1 ++ l2) y c hc⟩
  · intro h
    rw [agendaCmds_append, agendaCmds_stop l2 _ h]
    simp
  · intro h
    rw [eventLinesCmds_append, eventLinesCmds_stop es2 _ h]
    simp

/-- Witness for C6: a day of 17 events exhausts the budget (the cursor ends at
400); appending a further day emits nothing new. -/
theorem agenda_truncation_witness :
    agendaLimit ≤ (agendaCmds 20 [⟨0, "Today", List.replicate 17 ⟨"Standup", "", 32400, 36000⟩⟩]).2 ∧
    agendaCmds 20 ([⟨0, "Today", List.replicate 17 ⟨"Standup", "", 32400, 36000⟩⟩]
        ++ [⟨1, "Tomorrow", [⟨"Lunch", "", 129600, 133200⟩]⟩])
      = agendaCmds 20 [⟨0, "Today", List.replicate 17 ⟨"Standup", "", 32400, 36000⟩⟩] :=
  ⟨by decide,
   (agenda_truncation 20 [⟨0, "Today", List.replicate 17 ⟨"Standup", "", 32400, 36000⟩⟩]
      [⟨1, "Tomorrow", [⟨"Lunch", "", 129600, 133200⟩]⟩] [] []).1 (by decide)⟩

/-- Calendar dates are monotone in the timestamp. -/
theorem dateOf_mono {a b : Nat} (h : a ≤ b) : dateOf a ≤ dateOf b :=
  Nat.div_le_div_right h

/-- The floored day gap is monotone in the event timestamp. -/
theorem daysBetween_mono {a b : Nat} (now : Nat) (h : a ≤ b) :
    daysBetween a now ≤ daysBetween b now := by
  unfold daysBetween
  omega

/-- In a list sorted by start time, every event left over after dropping the
leading run of head-dated events has a strictly later date than the head. -/
theorem sorted_dropWhile_date_lt (e : Event) (es : List Event)
    (hs : (e :: es).Pairwise (fun a b => a.start ≤ b.start)) :
    ∀ x ∈ es.dropWhile (fun x => dateOf x.start == dateOf e.start),
      dateOf e.start < dateOf x.start := by
  induction es with
  | nil => simp
  | cons a as ih =>
    intro x hx
    simp only [List.dropWhile_cons] at hx
    by_cases hp : dateOf a.start == dateOf e.start
    · rw [if_pos hp] at hx
      have hsub : List.Sublist (e :: as) (e :: a :: as) :=
        (List.sublist_cons_self a as).cons₂ e
      exact ih (hs.sublist hsub) x hx
    · rw [if_neg hp] at hx
      have hea : e.start ≤ a.start :=
        (List.pairwise_cons.mp hs).1 a (List.mem_cons_self a as)
      have hne : ¬ dateOf a.start = dateOf e.start := by simpa using hp
      have hlt : dateOf e.start < dateOf a.start :=
        lt_of_le_of_ne (dateOf_mono hea) (fun h => hne h.symm)
      rcases List.mem_cons.mp hx with rfl | hxm
      · exact hlt
      · have hax : a.start ≤ x.start :=
          (List.pairwise_cons.mp (List.pairwise_cons.mp hs).2).1 x hxm
        exact lt_of_lt_of_le hlt (dateOf_mono hax)

/-- Every produced day dates itself after some input event whose floored gap
to now is within the window. -/
theorem eventsToDays_date_mem (now look : Nat) (l : List Event) :
    ∀ d ∈ eventsToDays now look l,
      ∃ x ∈ l, d.date = dateOf x.start ∧ daysBetween x.start now ≤ (look : Int) := by
  induction l using eventsToDays.induct now look with
  | case1 => simp [eventsToDays]
  | case2 e es hgt =>
    simp [eventsToDays, if_pos hgt]
  | case3 e es hgt ih =>
    intro d hd
    rw [eventsToDays, if_neg hgt] at hd
    rcases List.mem_cons.mp hd with h1 | h1
    · subst h1
      exact ⟨e, List.mem_cons_self e es, rfl, not_lt.mp hgt⟩
    · obtain ⟨x, hx, hdx, hgap⟩ := ih d h1
      exact ⟨x, List.mem_cons_of_mem e ((List.dropWhile_sublist _).subset hx), hdx, hgap⟩

/-- For sorted input, the produced day dates are strictly increasing. -/
theorem eventsToDays_dates_strictMono (now look : Nat) (l : List Event)
    (hs : l.Pairwise (fun a b => a.start ≤ b.start)) :
    ((eventsToDays now look l).map Day.date).Pairwise (· < ·) := by
  induction l using eventsToDays.induct now look with
  | case1 => simp [eventsToDays]
  | case2 e es hgt => simp [eventsToDays, if_pos hgt]
  | case3 e es hgt ih =>
    rw [eventsToDays, if_neg hgt]
    rw [List.map_cons, List.pairwise_cons]
    have hsdrop : (es.dropWhile (fun x => dateOf x.start == dateOf e.start)).Pairwise
        (fun a b => a.start ≤ b.start) :=
      (hs.sublist (List.sublist_cons_self e es)).sublist (List.dropWhile_sublist _)
    constructor
    · intro b hb
      obtain ⟨d, hd, rfl⟩ := List.mem_map.mp hb
      obtain ⟨x, hx, hdx, _⟩ := eventsToDays_date_mem now look _ d hd
      rw [hdx]
      exact sorted_dropWhile_date_lt e es hs x hx
    · exact ih hsdrop

/-- Every produced day is nonempty and all its events carry the day's date. -/
theorem eventsToDays_day_events (now look : Nat) (l : List Event) :
    ∀ d ∈ eventsToDays now look l,
      d.events ≠ [] ∧ ∀ x ∈ d.events, dateOf x.start = d.date := by
  induction l using eventsToDays.induct now look with
  | case1 => simp [eventsToDays]
  | case2 e es hgt => simp [eventsToDays, if_pos hgt]
  | case3 e es hgt ih =>
    intro d hd
    rw [eventsToDays, if_neg hgt] at hd
    rcases List.mem_cons.mp hd with h1 | h1
    · subst h1
      refine ⟨by simp, ?_⟩
      intro x hx
      rcases List.mem_cons.mp hx with rfl | hx2
      · rfl
      · have := List.mem_takeWhile_imp hx2
        simpa using this
    · exact ih d h1

/-- The concatenation of the produced days' event lists is a sublist of the
input, so the input event order is preserved. -/
theorem eventsToDays_events_sublist (now look : Nat) (l : List Event) :
    List.Sublist (((eventsToDays now look l).map Day.events).flatten) l := by
  induction l using eventsToDays.induct now look with
  | case1 => simp [eventsToDays]
  | case2 e es hgt => simp [eventsToDays, if_pos hgt]
  | case3 e es hgt ih =>
    rw [eventsToDays, if_neg hgt]
    rw [List.map_cons, List.flatten_cons]
    have step : List.Sublist
        ((e :: es.takeWhile (fun x => dateOf x.start == dateOf e.start)) ++
          ((eventsToDays now look
            (es.dropWhile (fun x => dateOf x.start == dateOf e.start))).map Day.events).flatten)
        (e :: (es.takeWhile (fun x => dateOf x.start == dateOf e.start) ++
          es.dropWhile (fun x => dateOf x.start == dateOf e.start))) := by
      simp only [List.cons_append]
      exact (ih.append_left _).cons₂ e
    rw [List.takeWhile_append_dropWhile] at step
    exact step

/-- For sorted input, every input event dated like a produced day belongs to
that day's event list (no event of an included date is left out). -/
theorem eventsToDays_complete (now look : Nat) (l : List Event)
    (hs : l.Pairwise (fun a b => a.start ≤ b.start)) :
    ∀ d ∈ eventsToDays now look l, ∀ x ∈ l, dateOf x.start = d.date → x ∈ d.events := by
  induction l using eventsToDays.induct now look with
  | case1 => simp [eventsToDays]
  | case2 e es hgt => simp [eventsToDays, if_pos hgt]
  | case3 e es hgt ih =>
    intro d hd x hx hdate
    rw [eventsToDays, if_neg hgt] at hd
    have hsdrop : (es.dropWhile (fun x => dateOf x.start == dateOf e.start)).Pairwise
        (fun a b => a.start ≤ b.start) :=
      (hs.sublist (List.sublist_cons_self e es)).sublist (List.dropWhile_sublist _)
    rcases List.mem_cons.mp hd with h1 | h1
    · subst h1
      rcases List.mem_cons.mp hx with rfl | hx2
      · exact List.mem_cons_self x _
      · have hsplit : x ∈ es.takeWhile (fun x => dateOf x.start == dateOf e.start) ∨
            x ∈ es.dropWhile (fun x => dateOf x.start == dateOf e.start) := by
          have : x ∈ es.takeWhile (fun x => dateOf x.start == dateOf e.start) ++
              es.dropWhile (fun x => dateOf x.start == dateOf e.start) := by
            rw [List.takeWhile_append_dropWhile]
            exact hx2
          exact List.mem_append.mp this
        rcases hsplit with h2 | h2
        · exact List.mem_cons_of_mem e h2
        · exact absurd hdate (Nat.ne_of_gt (sorted_dropWhile_date_lt e es hs x h2))
    · obtain ⟨z, hz, hdz, _⟩ := eventsToDays_date_mem now look _ d h1
      have hdlt : dateOf e.start < d.date := by
        rw [hdz]
        exact sorted_dropWhile_date_lt e es hs z hz
      rcases List.mem_cons.mp hx with rfl | hx2
      · omega
      · have hsplit : x ∈ es.takeWhile (fun x => dateOf x.start == dateOf e.start) ∨
            x ∈ es.dropWhile (fun x => dateOf x.start == dateOf e.start) := by
          have : x ∈ es.takeWhile (fun x => dateOf x.start == dateOf e.start) ++
              es.dropWhile (fun x => dateOf x.start == dateOf e.start) := by
            rw [List.takeWhile_append_dropWhile]
            exact hx2
          exact List.mem_append.mp this
        rcases hsplit with h2 | h2
        · have := List.mem_takeWhile_imp h2
          have hxe : dateOf x.start = dateOf e.start := by simpa using this
          omega
        · exact ih hsdrop d h1 x h2 hdate

/-- C7: for input sorted ascending by start time, the aggregator produces
days with strictly increasing dates (so no date occurs in two days), every
day is nonempty with all its events on the day's date (no day is invented),
the concatenated day contents are a sublist of the input (original
chronological order preserved), and every input event dated like a produced
day is contained in that day. -/
theorem eventsToDays_one_day_per_date (now look : Nat) (events : List Event)
    (hs : events.Pairwise (fun a b => a.start ≤ b.start)) :
    ((eventsToDays now look events).map Day.date).Pairwise (· < ·) ∧
    (∀ d ∈ eventsToDays now look events,
      d.events ≠ [] ∧ ∀ x ∈ d.events, dateOf x.start = d.date) ∧
    List.Sublist (((eventsToDays now look events).map Day.events).flatten) events ∧
    (∀ d ∈ eventsToDays now look events, ∀ x ∈ events,
      dateOf x.start = d.date → x ∈ d.events) :=
  ⟨eventsToDays_dates_strictMono now look events hs,
   eventsToDays_day_events now look events,
   eventsToDays_events_sublist now look events,
   eventsToDays_complete now look events hs⟩

/-- Witness for C7: the spec's end-to-end scenario — three events on "today"
at distinct times produce one day labelled "Today" holding the three events in
order (now is 2026-10-12 08:00). -/
theorem eventsToDays_one_day_per_date_witness :
    eventsToDays 1791792000 7
        [⟨"A", "", 1791795600, 1791799200⟩, ⟨"B", "", 1791806400, 1791810000⟩,
         ⟨"C", "", 1791828000, 1791831600⟩]
      = [⟨20738, "Today",
          [⟨"A", "", 1791795600, 1791799200⟩, ⟨"B", "", 1791806400, 1791810000⟩,
           ⟨"C", "", 1791828000, 1791831600⟩]⟩] ∧
    (((eventsToDays 1791792000 7
        [⟨"A", "", 1791795600, 1791799200⟩, ⟨"B", "", 1791806400, 1791810000⟩,
         ⟨"C", "", 1791828000, 1791831600⟩]).map Day.date).Pairwise (· < ·) ∧
     (∀ d ∈ eventsToDays 1791792000 7
        [⟨"A", "", 1791795600, 1791799200⟩, ⟨"B", "", 1791806400, 1791810000⟩,
         ⟨"C", "", 1791828000, 1791831600⟩],
        d.events ≠ [] ∧ ∀ x ∈ d.events, dateOf x.start = d.date) ∧
     List.Sublist (((eventsToDays 1791792000 7
        [⟨"A", "", 1791795600, 1791799200⟩, ⟨"B", "", 1791806400, 1791810000⟩,
         ⟨"C", "", 1791828000, 1791831600⟩]).map Day.events).flatten)
        [⟨"A", "", 1791795600, 1791799200⟩, ⟨"B", "", 1791806400, 1791810000⟩,
         ⟨"C", "", 1791828000, 1791831600⟩] ∧
     (∀ d ∈ eventsToDays 1791792000 7
        [⟨"A", "", 1791795600, 1791799200⟩, ⟨"B", "", 1791806400, 1791810000⟩,
         ⟨"C", "", 1791828000, 1791831600⟩],
        ∀ x ∈ [⟨"A", "", 1791795600, 1791799200⟩, ⟨"B", "", 1791806400, 1791810000⟩,
         (⟨"C", "", 1791828000, 1791831600⟩ : Event)],
        dateOf x.start = d.date → x ∈ d.events)) :=
  ⟨by simp [eventsToDays, daysBetween, dateOf, dateTimeAsPrettyString],
   eventsToDays_one_day_per_date 1791792000 7
     [⟨"A", "", 1791795600, 1791799200⟩, ⟨"B", "", 1791806400, 1791810000⟩,
      ⟨"C", "", 1791828000, 1791831600⟩] (by decide)⟩

/-- Every produced day's date is at most `lookahead + 1` days after the
current date (the gap check floors the timestamp difference to whole 24-hour
periods, so the calendar-date bound is one looser than the window). -/
theorem eventsToDays_date_bound (now look : Nat) (l : List Event) :
    ∀ d ∈ eventsToDays now look l, d.date ≤ dateOf now + look + 1 := by
  intro d hd
  obtain ⟨x, _, hdx, hgap⟩ := eventsToDays_date_mem now look l d hd
  rw [hdx]
  unfold daysBetween at hgap
  unfold dateOf
  omega

/-- For sorted input, every event whose floored day gap is within the window
ends up inside some produced day. -/
theorem eventsToDays_includes_gap_le (now look : Nat) (l : List Event)
    (hs : l.Pairwise (fun a b => a.start ≤ b.start)) :
    ∀ x ∈ l, daysBetween x.start now ≤ (look : Int) →
      ∃ d ∈ eventsToDays now look l, x ∈ d.events := by
  induction l using eventsToDays.induct now look with
  | case1 => simp
  | case2 e es hgt =>
    intro x hx hgap
    exfalso
    have hex : e.start ≤ x.start := by
      rcases List.mem_cons.mp hx with rfl | hx2
      · exact le_refl _
      · exact (List.pairwise_cons.mp hs).1 x hx2
    have := daysBetween_mono now hex
    omega
  | case3 e es hgt ih =>
    intro x hx hgap
    rw [eventsToDays, if_neg hgt]
    have hsdrop : (es.dropWhile (fun x => dateOf x.start == dateOf e.start)).Pairwise
        (fun a b => a.start ≤ b.start) :=
      (hs.sublist (List.sublist_cons_self e es)).sublist (List.dropWhile_sublist _)
    rcases List.mem_cons.mp hx with rfl | hx2
    · exact ⟨_, List.mem_cons_self _ _, List.mem_cons_self x _⟩
    · have hsplit : x ∈ es.takeWhile (fun x => dateOf x.start == dateOf e.start) ∨
          x ∈ es.dropWhile (fun x => dateOf x.start == dateOf e.start) := by
        have : x ∈ es.takeWhile (fun x => dateOf x.start == dateOf e.start) ++
            es.dropWhile (fun x => dateOf x.start == dateOf e.start) := by
          rw [List.takeWhile_append_dropWhile]
          exact hx2
        exact List.mem_append.mp this
      rcases hsplit with h2 | h2
      · exact ⟨_, List.mem_cons_self _ _, List.mem_cons_of_mem e h2⟩
      · obtain ⟨d, hd, hxd⟩ := ih hsdrop x h2 hgap
        exact ⟨d, List.mem_cons_of_mem _ hd, hxd⟩

/-- For sorted input, once some event's floored day gap exceeds the window, no
produced day is dated after that event: processing effectively stops at the
first over-window group. -/
theorem eventsToDays_stops_after_over (now look : Nat) (l : List Event)
    (hs : l.Pairwise (fun a b => a.start ≤ b.start)) :
    ∀ x ∈ l, (look : Int) < daysBetween x.start now →
      ∀ d ∈ eventsToDays now look l, d.date ≤ dateOf x.start := by
  induction l using eventsToDays.induct now look with
  | case1 => simp
  | case2 e es hgt =>
    intro x hx hgap d hd
    rw [eventsToDays, if_pos hgt] at hd
    simp at hd
  | case3 e es hgt ih =>
    intro x hx hgap d hd
    rw [eventsToDays, if_neg hgt] at hd
    have hsdrop : (es.dropWhile (fun x => dateOf x.start == dateOf e.start)).Pairwise
        (fun a b => a.start ≤ b.start) :=
      (hs.sublist (List.sublist_cons_self e es)).sublist (List.dropWhile_sublist _)
    have hxes : x ∈ es := by
      rcases List.mem_cons.mp hx with rfl | hx2
      · exact absurd hgap (by omega)
      · exact hx2
    have hex : e.start ≤ x.start := (List.pairwise_cons.mp hs).1 x hxes
    rcases List.mem_cons.mp hd with h1 | h1
    · subst h1
      exact dateOf_mono hex
    · have hsplit : x ∈ es.takeWhile (fun x => dateOf x.start == dateOf e.start) ∨
          x ∈ es.dropWhile (fun x => dateOf x.start == dateOf e.start) := by
        have hmem : x ∈ es.takeWhile (fun x => dateOf x.start == dateOf e.start) ++
            es.dropWhile (fun x => dateOf x.start == dateOf e.start) := by
          rw [List.takeWhile_append_dropWhile]
          exact hxes
        exact List.mem_append.mp hmem
      rcases hsplit with h2 | h2
      · -- x still belongs to the head date group: the rest of the input opens
        -- with an event at least as late as x, so the recursive call breaks at
        -- once and produces no day at all.
        exfalso
        have hsplitp : ∀ a ∈ es.takeWhile (fun x => dateOf x.start == dateOf e.start),
            ∀ b ∈ es.dropWhile (fun x => dateOf x.start == dateOf e.start),
              a.start ≤ b.start := by
          have h0 : List.Pairwise (fun a b => a.start ≤ b.start)
              (es.takeWhile (fun x => dateOf x.start == dateOf e.start) ++
               es.dropWhile (fun x => dateOf x.start == dateOf e.start)) := by
            rw [List.takeWhile_append_dropWhile]
            exact (List.pairwise_cons.mp hs).2
          exact (List.pairwise_append.mp h0).2.2
        cases hdw : es.dropWhile (fun x => dateOf x.start == dateOf e.start) with
        | nil =>
          rw [hdw] at h1
          simp [eventsToDays] at h1
        | cons r0 rs =>
          have hxr0 : x.start ≤ r0.start :=
            hsplitp x h2 r0 (by rw [hdw]; exact List.mem_cons_self r0 rs)
          have hr0gap : (look : Int) < daysBetween r0.start now :=
            lt_of_lt_of_le hgap (daysBetween_mono now hxr0)
          rw [hdw] at h1
          rw [eventsToDays, if_pos hr0gap] at h1
          simp at h1
      · exact ih hsdrop x h2 hgap d h1

/-- C2 counterexample: with the current time 10:00 on day 0 and a lookahead of
1 day, an event at 09:00 two calendar days out has floored gap
`(205200 - 36000) / 86400 = 1`, so its day IS produced although its date is
`lookahead + 1` days after the current date — the claim's exclusion boundary
fails on the code. -/
theorem eventsToDays_lookahead_counterexample :
    ∃ d ∈ eventsToDays 36000 1 [⟨"Breakfast", "", 205200, 208800⟩],
      dateOf 36000 + 1 < d.date := by
  have h : eventsToDays 36000 1 [⟨"Breakfast", "", 205200, 208800⟩]
      = [⟨2, "Saturday 3rd January", [⟨"Breakfast", "", 205200, 208800⟩]⟩] := by
    simp [eventsToDays, daysBetween, dateOf, dateTimeAsPrettyString, weekdayName, weekdayIdx,
      domOf, monthOf, monthName, civilFromDays, ordinalSuffix, dayNames, monthNames]
    decide
  rw [h]
  exact ⟨_, List.mem_cons_self _ _, by decide⟩

/-- C2 (amended): for sorted input, every produced day's date is at most
`lookahead + 1` days after the current date (the window check floors the
timestamp difference to whole 24-hour periods instead of comparing calendar
dates); a day exactly `lookahead` days out is always included; and once an
event's floored gap exceeds the window, no produced day lies beyond that
event's date — processing stops at the first over-window group. -/
theorem eventsToDays_lookahead_window (now look : Nat) (events : List Event)
    (hs : events.Pairwise (fun a b => a.start ≤ b.start)) :
    (∀ d ∈ eventsToDays now look events, d.date ≤ dateOf now + look + 1) ∧
    (∀ x ∈ events, dateOf x.start = dateOf now + look →
      ∃ d ∈ eventsToDays now look events, x ∈ d.events ∧ d.date = dateOf now + look) ∧
    (∀ x ∈ events, (look : Int) < daysBetween x.start now →
      ∀ d ∈ eventsToDays now look events, d.date ≤ dateOf x.start) := by
  refine ⟨eventsToDays_date_bound now look events, ?_,
    eventsToDays_stops_after_over now look events hs⟩
  intro x hx hxd
  have hgap : daysBetween x.start now ≤ (look : Int) := by
    unfold dateOf at hxd
    unfold daysBetween
    omega
  obtain ⟨d, hd, hxd2⟩ := eventsToDays_includes_gap_le now look events hs x hx hgap
  have hdate : dateOf x.start = d.date :=
    (eventsToDays_day_events now look events d hd).2 x hxd2
  exact ⟨d, hd, hxd2, by rw [← hdate, hxd]⟩

/-- Witness for C2 (amended): now 10:00 on day 0, lookahead 1; events today,
tomorrow (exactly lookahead out, included), two days out (included because the
floored gap is 1) and three days out (floored gap 2, excluded and stopping
processing). -/
theorem eventsToDays_lookahead_window_witness :
    ([⟨"A", "", 39600, 43200⟩, ⟨"B", "", 118800, 122400⟩, ⟨"C", "", 205200, 208800⟩,
      (⟨"D", "", 291600, 295200⟩ : Event)].Pairwise (fun a b => a.start ≤ b.start)) ∧
    ((∀ d ∈ eventsToDays 36000 1
        [⟨"A", "", 39600, 43200⟩, ⟨"B", "", 118800, 122400⟩, ⟨"C", "", 205200, 208800⟩,
         ⟨"D", "", 291600, 295200⟩], d.date ≤ dateOf 36000 + 1 + 1) ∧
     (∀ x ∈ [⟨"A", "", 39600, 43200⟩, ⟨"B", "", 118800, 122400⟩, ⟨"C", "", 205200, 208800⟩,
         (⟨"D", "", 291600, 295200⟩ : Event)], dateOf x.start = dateOf 36000 + 1 →
       ∃ d ∈ eventsToDays 36000 1
          [⟨"A", "", 39600, 43200⟩, ⟨"B", "", 118800, 122400⟩, ⟨"C", "", 205200, 208800⟩,
           ⟨"D", "", 291600, 295200⟩], x ∈ d.events ∧ d.date = dateOf 36000 + 1) ∧
     (∀ x ∈ [⟨"A", "", 39600, 43200⟩, ⟨"B", "", 118800, 122400⟩, ⟨"C", "", 205200, 208800⟩,
         (⟨"D", "", 291600, 295200⟩ : Event)], (1 : Int) < daysBetween x.start 36000 →
       ∀ d ∈ eventsToDays 36000 1
          [⟨"A", "", 39600, 43200⟩, ⟨"B", "", 118800, 122400⟩, ⟨"C", "", 205200, 208800⟩,
           ⟨"D", "", 291600, 295200⟩], d.date ≤ dateOf x.start)) :=
  ⟨by decide,
   eventsToDays_lookahead_window 36000 1
     [⟨"A", "", 39600, 43200⟩, ⟨"B", "", 118800, 122400⟩, ⟨"C", "", 205200, 208800⟩,
      ⟨"D", "", 291600, 295200⟩] (by decide)⟩

/-- An eight-sample daily series used to exercise the daily slot selection:
one day/night pair per calendar day starting at the epoch Thursday. -/
def exDailySeries : List DailySample :=
  [⟨0, .code 1, 10, 5⟩, ⟨86400, .code 1, 11, 6⟩,
   ⟨172800, .code 1, 12, 7⟩, ⟨259200, .code 1, 13, 8⟩,
   ⟨345600, .code 1, 14, 9⟩, ⟨432000, .code 1, 15, 10⟩,
   ⟨518400, .code 1, 16, 11⟩, ⟨604800, .code 1, 17, 12⟩]

/-- C4 counterexample: on a concrete eight-sample daily series the slots the
renderer builds (pairs at positions (2,3), (4,5), (6,7)) differ from the
spec's "take three such pairs" selection (pairs (0,1), (2,3), (4,5)): the
code skips the first day/night pair. -/
theorem dailySlots_spec_counterexample :
    dailySlots exDailySeries ≠ dailySlotsSpecPairing exDailySeries := by
  decide

/-- C4 (amended): whenever the daily series has samples at positions 2-7 and
the slot computation succeeds, the three display slots come from the pairs at
positions (2,3), (4,5) and (6,7) — the first day/night pair is skipped — and
each slot carries the weekday abbreviation and glyph of the even (day) sample,
its day maximum feels-like as primary and the following odd (night) sample's
night minimum feels-like as secondary. -/
theorem dailySlots_pairing (d : List DailySample) (a b c e f g : DailySample)
    (h2 : d.get? 2 = some a) (h3 : d.get? 3 = some b) (h4 : d.get? 4 = some c)
    (h5 : d.get? 5 = some e) (h6 : d.get? 6 = some f) (h7 : d.get? 7 = some g)
    (ss : List DailySlot) (hs : dailySlots d = some ss) :
    ∃ g1 g2 g3, glyphLookup a.weatherType = some g1 ∧
      glyphLookup c.weatherType = some g2 ∧
      glyphLookup f.weatherType = some g3 ∧
      ss = [⟨weekdayAbbrev a.timestamp, g1, toString a.dayMaxFeelsLike ++ "°",
             toString b.nightMinFeelsLike ++ "°"⟩,
            ⟨weekdayAbbrev c.timestamp, g2, toString c.dayMaxFeelsLike ++ "°",
             toString e.nightMinFeelsLike ++ "°"⟩,
            ⟨weekdayAbbrev f.timestamp, g3, toString f.dayMaxFeelsLike ++ "°",
             toString g.nightMinFeelsLike ++ "°"⟩] := by
  unfold dailySlots at hs
  rw [h2, h3, h4, h5, h6, h7] at hs
  simp only [Option.bind_eq_bind, Option.some_bind] at hs
  unfold dailySlotOf at hs
  cases hg1 : glyphLookup a.weatherType with
  | none => rw [hg1] at hs; simp at hs
  | some g1 =>
    cases hg2 : glyphLookup c.weatherType with
    | none => rw [hg1, hg2] at hs; simp at hs
    | some g2 =>
      cases hg3 : glyphLookup f.weatherType with
      | none => rw [hg1, hg2, hg3] at hs; simp at hs
      | some g3 =>
        rw [hg1, hg2, hg3] at hs
        simp only [Option.map_some', Option.bind_eq_bind, Option.some_bind,
          Option.pure_def, Option.some.injEq] at hs
        exact ⟨g1, g2, g3, rfl, rfl, rfl, hs.symm⟩

/-- Witness for C4 (amended): on the concrete series the slots are built from
samples 2-7 — Saturday, Monday and Wednesday — not from the first pair. -/
theorem dailySlots_pairing_witness :
    dailySlots exDailySeries
      = some [⟨"Sat", "B", "12°", "8°"⟩, ⟨"Mon", "B", "14°", "10°"⟩,
              ⟨"Wed", "B", "16°", "12°"⟩] ∧
    (∃ g1 g2 g3,
      glyphLookup (WeatherCode.code 1) = some g1 ∧
      glyphLookup (WeatherCode.code 1) = some g2 ∧
      glyphLookup (WeatherCode.code 1) = some g3 ∧
      [(⟨"Sat", "B", "12°", "8°"⟩ : DailySlot), ⟨"Mon", "B", "14°", "10°"⟩,
       ⟨"Wed", "B", "16°", "12°"⟩]
        = [⟨weekdayAbbrev 172800, g1, toString (12 : Int) ++ "°", toString (8 : Int) ++ "°"⟩,
           ⟨weekdayAbbrev 345600, g2, toString (14 : Int) ++ "°", toString (10 : Int) ++ "°"⟩,
           ⟨weekdayAbbrev 518400, g3, toString (16 : Int) ++ "°", toString (12 : Int) ++ "°"⟩]) :=
  ⟨by decide,
   dailySlots_pairing exDailySeries
     ⟨172800, .code 1, 12, 7⟩ ⟨259200, .code 1, 13, 8⟩
     ⟨345600, .code 1, 14, 9⟩ ⟨432000, .code 1, 15, 10⟩
     ⟨518400, .code 1, 16, 11⟩ ⟨604800, .code 1, 17, 12⟩
     rfl rfl rfl rfl rfl rfl
     [⟨"Sat", "B", "12°", "8°"⟩, ⟨"Mon", "B", "14°", "10°"⟩, ⟨"Wed", "B", "16°", "12°"⟩]
     (by decide)⟩

/-- A command whose lowest row stays at or above the boundary rule is not in
the forecast strip. -/
theorem inStrip_false_of_le {c : Cmd} (h : cmdYmax c ≤ 401) : inStrip c = false := by
  simp only [inStrip, bottomgutter, decide_eq_false_iff_not]
  omega

/-- A command reaching strictly below the boundary rule is in the forecast
strip. -/
theorem inStrip_true_of_gt {c : Cmd} (h : 401 < cmdYmax c) : inStrip c = true := by
  simp only [inStrip, bottomgutter, decide_eq_true_eq]
  omega

/-- No month is longer than 31 days. -/
theorem daysInMonth_le (y m : Nat) : daysInMonth y m ≤ 31 := by
  unfold daysInMonth
  split
  · split <;> omega
  · split <;> omega

/-- Row bound for the mini-calendar grid: starting in column `dw` with `n`
cells left, no emitted command sits below the starting row plus 20 pixels per
completed week row. -/
theorem miniCalCells_y_le (nowDom : Nat) :
    ∀ (n dayIdx dw caly : Nat), dw < 7 →
      ∀ c ∈ miniCalCells nowDom n dayIdx dw caly,
        cmdYmax c ≤ ((caly + 20 * ((dw + n) / 7) : Nat) : Int) := by
  intro n
  induction n with
  | zero => intro dayIdx dw caly hdw c hc; simp [miniCalCells] at hc
  | succ n ih =>
    intro dayIdx dw caly hdw c hc
    simp only [miniCalCells, List.mem_cons, List.mem_append] at hc
    rcases hc with rfl | hc
    · simp only [cmdYmax]
      exact_mod_cast Nat.le_add_right caly _
    rcases hc with hc | hc
    · by_cases hdom : dayIdx + 1 = nowDom
      · rw [if_pos hdom] at hc
        rcases List.mem_singleton.mp hc with rfl
        simp only [cmdYmax]
        exact_mod_cast Nat.le_add_right caly _
      · rw [if_neg hdom] at hc
        simp at hc
    · by_cases h7 : dw + 1 = 7
      · rw [if_pos h7] at hc
        have hb := ih (dayIdx + 1) 0 (caly + 20) (by omega) c hc
        have harith : caly + 20 + 20 * ((0 + n) / 7) ≤ caly + 20 * ((dw + (n + 1)) / 7) := by
          omega
        exact le_trans hb (by exact_mod_cast harith)
      · rw [if_neg h7] at hc
        have hb := ih (dayIdx + 1) (dw + 1) caly (by omega) c hc
        have harith : caly + 20 * ((dw + 1 + n) / 7) ≤ caly + 20 * ((dw + (n + 1)) / 7) := by
          omega
        exact le_trans hb (by exact_mod_cast harith)

/-- The mini calendar never draws inside the forecast strip. -/
theorem miniCalCmds_not_inStrip (now : Nat) : ∀ c ∈ miniCalCmds now, inStrip c = false := by
  intro c hc
  unfold miniCalCmds at hc
  rcases List.mem_append.mp hc with hc | hc
  · unfold miniCalHeader at hc
    rcases List.mem_append.mp hc with hc | hc
    · obtain ⟨i, _, rfl⟩ := List.mem_map.mp hc
      exact inStrip_false_of_le (by norm_num [cmdYmax])
    · rcases List.mem_singleton.mp hc with rfl
      exact inStrip_false_of_le (by norm_num [cmdYmax])
  · have h1 : firstWeekdayOfMonth now < 7 := by
      unfold firstWeekdayOfMonth weekdayIdx
      omega
    have h2 : daysInMonth (yearOf now) (monthOf now) ≤ 31 :=
      daysInMonth_le (yearOf now) (monthOf now)
    have hb := miniCalCells_y_le (domOf now) (daysInMonth (yearOf now) (monthOf now)) 0
      (firstWeekdayOfMonth now) 290 h1 c hc
    apply inStrip_false_of_le
    refine le_trans hb ?_
    have : (290 + 20 * ((firstWeekdayOfMonth now +
        daysInMonth (yearOf now) (monthOf now)) / 7) : Nat) ≤ 401 := by
      omega
    exact_mod_cast this

/-- Everything drawn before the weather block (left border, date panel,
agenda, boundary rule) stays out of the forecast strip. -/
theorem baseCmdsPre_not_inStrip (w now : Nat) (days : List Day) :
    ∀ c ∈ baseCmdsPre w now days, inStrip c = false := by
  intro c hc
  unfold baseCmdsPre at hc
  rcases List.mem_cons.mp hc with rfl | hc
  · exact inStrip_false_of_le (by norm_num [cmdYmax])
  rcases List.mem_append.mp hc with hc | hc
  · rcases List.mem_append.mp hc with hc | hc
    · unfold datePanelCmds at hc
      simp only [List.mem_cons, List.not_mem_nil, or_false] at hc
      rcases hc with rfl | rfl | rfl | rfl <;> exact inStrip_false_of_le (by norm_num [cmdYmax])
    · have hb := agendaCmds_y_lt days 20 c hc
      apply inStrip_false_of_le
      have hl : (agendaLimit : Int) ≤ 401 := by norm_num [agendaLimit]
      omega
  · rcases List.mem_singleton.mp hc with rfl
    exact inStrip_false_of_le (by norm_num [cmdYmax])

/-- Every command of a successful near-term forecast loop lies inside the
forecast strip. -/
theorem hourlyCmds_inStrip : ∀ (xs : List HourlySample) (xpos : Int) (cs : List Cmd),
    hourlyCmds xs xpos = some cs → ∀ c ∈ cs, inStrip c = true := by
  intro xs
  induction xs with
  | nil =>
    intro xpos cs h c hc
    simp only [hourlyCmds, Option.some.injEq] at h
    subst h
    simp at hc
  | cons x xs ih =>
    intro xpos cs h c hc
    unfold hourlyCmds at h
    cases hcell : hourlyCellCmds x xpos with
    | none => rw [hcell] at h; simp at h
    | some cell =>
      cases hrest : hourlyCmds xs (xpos + 80) with
      | none => rw [hcell, hrest] at h; simp at h
      | some rest =>
        rw [hcell, hrest] at h
        simp only [Option.bind_eq_bind, Option.some_bind, Option.pure_def,
          Option.some.injEq] at h
        subst h
        rcases List.mem_append.mp hc with hc2 | hc2
        · unfold hourlyCellCmds at hcell
          cases hg : glyphLookup x.weatherType with
          | none => rw [hg] at hcell; simp at hcell
          | some g =>
            rw [hg] at hcell
            simp only [Option.map_some', Option.some.injEq] at hcell
            subst hcell
            simp only [List.mem_cons, List.not_mem_nil, or_false] at hc2
            rcases hc2 with rfl | rfl | rfl <;> exact inStrip_true_of_gt (by norm_num [cmdYmax])
        · exact ih (xpos + 80) rest hrest c hc2

/-- Every command of the daily forecast loop lies inside the forecast
strip. -/
theorem dailyCmdsOfSlots_inStrip : ∀ (ss : List DailySlot) (xpos : Int),
    ∀ c ∈ dailyCmdsOfSlots ss xpos, inStrip c = true := by
  intro ss
  induction ss with
  | nil => intro xpos c hc; simp [dailyCmdsOfSlots] at hc
  | cons s ss ih =>
    intro xpos c hc
    unfold dailyCmdsOfSlots dailyCellCmds at hc
    rcases List.mem_append.mp hc with hc2 | hc2
    · simp only [List.mem_cons, List.not_mem_nil, or_false] at hc2
      rcases hc2 with rfl | rfl | rfl | rfl <;> exact inStrip_true_of_gt (by norm_num [cmdYmax])
    · exact ih (xpos + 80) c hc2

/-- Every command of a successful weather block lies inside the forecast
strip (the vertical divider reaches the bottom edge, so the height must
exceed the boundary rule). -/
theorem weatherCmds_inStrip (now h : Nat) (w : Weather) (hh : 401 < h) :
    ∀ cs, weatherCmds now h w = some cs → ∀ c ∈ cs, inStrip c = true := by
  intro cs hcs c hc
  simp only [weatherCmds] at hcs
  cases hhc : hourlyCmds (nearTermSlots now w.hourly) 50 with
  | none => rw [hhc] at hcs; simp at hcs
  | some hcmds =>
    cases hds : dailySlots w.daily with
    | none => rw [hhc, hds] at hcs; simp at hcs
    | some ds =>
      rw [hhc, hds] at hcs
      simp only [Option.bind_eq_bind, Option.some_bind, Option.pure_def,
        Option.some.injEq] at hcs
      subst hcs
      rcases List.mem_append.mp hc with hc2 | hc2
      · rcases List.mem_append.mp hc2 with hc3 | hc3
        · exact hourlyCmds_inStrip _ 50 hcmds hhc c hc3
        · rcases List.mem_singleton.mp hc3 with rfl
          exact inStrip_true_of_gt (by simp only [cmdYmax]; exact_mod_cast hh)
      · exact dailyCmdsOfSlots_inStrip ds _ c hc2

/-- C3: with the weather input absent the renderer produces a frame of
exactly the requested dimensions whose command list contains nothing in the
forecast strip region (strictly below the boundary rule at rows 399-401) —
no placeholder, no divider; and whenever the same inputs with weather present
produce a frame, its commands outside the forecast strip are exactly the
no-weather frame's commands, so absence of forecast data collapses only the
strip. -/
theorem renderFrame_forecast_strip (w h now : Nat) (days : List Day) (wd : Weather)
    (hh : 401 < h) :
    ∃ F, renderFrame w h now days none = some F ∧
      F.width = w ∧ F.height = h ∧
      F.cmds.filter (fun c => inStrip c) = [] ∧
      ∀ F2, renderFrame w h now days (some wd) = some F2 →
        F2.width = w ∧ F2.height = h ∧
        F2.cmds.filter (fun c => ! inStrip c) = F.cmds := by
  refine ⟨⟨w, h, baseCmdsPre w now days ++ miniCalCmds now⟩, rfl, rfl, rfl, ?_, ?_⟩
  · rw [List.filter_append]
    rw [List.filter_eq_nil_iff.mpr, List.filter_eq_nil_iff.mpr]
    · simp
    · intro a ha
      simp [miniCalCmds_not_inStrip now a ha]
    · intro a ha
      simp [baseCmdsPre_not_inStrip w now days a ha]
  · intro F2 hF2
    simp only [renderFrame] at hF2
    cases hwc : weatherCmds now h wd with
    | none => rw [hwc] at hF2; simp at hF2
    | some wc =>
      rw [hwc] at hF2
      simp only [Option.map_some', Option.some.injEq] at hF2
      subst hF2
      refine ⟨rfl, rfl, ?_⟩
      have hbase : (baseCmdsPre w now days).filter (fun c => ! inStrip c)
          = baseCmdsPre w now days :=
        List.filter_eq_self.mpr (fun a ha => by simp [baseCmdsPre_not_inStrip w now days a ha])
      have hmini : (miniCalCmds now).filter (fun c => ! inStrip c) = miniCalCmds now :=
        List.filter_eq_self.mpr (fun a ha => by simp [miniCalCmds_not_inStrip now a ha])
      have hwcf : wc.filter (fun c => ! inStrip c) = [] :=
        List.filter_eq_nil_iff.mpr
          (fun a ha => by simp [weatherCmds_inStrip now h wd hh wc hwc a ha])
      simp only [List.filter_append, hbase, hmini, hwcf]
      simp

/-- Witness for C3 at the default frame size 880x528 with one agenda day and
a concrete weather input. -/
theorem renderFrame_forecast_strip_witness :
    401 < 528 ∧
    (∃ F, renderFrame 880 528 36000 [⟨0, "Today", [⟨"A", "", 32400, 36000⟩]⟩] none = some F ∧
      F.width = 880 ∧ F.height = 528 ∧
      F.cmds.filter (fun c => inStrip c) = [] ∧
      ∀ F2, renderFrame 880 528 36000 [⟨0, "Today", [⟨"A", "", 32400, 36000⟩]⟩]
          (some ⟨[⟨40000, .code 7, 12⟩], exDailySeries⟩) = some F2 →
        F2.width = 880 ∧ F2.height = 528 ∧
        F2.cmds.filter (fun c => ! inStrip c) = F.cmds) :=
  ⟨by decide,
   renderFrame_forecast_strip 880 528 36000 [⟨0, "Today", [⟨"A", "", 32400, 36000⟩]⟩]
     ⟨[⟨40000, .code 7, 12⟩], exDailySeries⟩ (by decide)⟩
